import Mathlib

/-!
Verification of the duplicate-question detection system.

The repository contains the presentation layer `app.py` (Streamlit UI); the
core feature pipeline lives in the companion module `helper` which the
presentation layer imports.  The presentation layer is embedded here directly
from `app.py`; the core pipeline (`helper.query_point_creator`) is modelled
from the specification, as its source is not part of the repository.
-/

namespace DupQ

/-- Python whitespace characters removed by `str.strip()`. -/
def pyIsSpace (c : Char) : Bool :=
  c = ' ' || c = '\t' || c = '\n' || c = '\r' || c = '\x0b' || c = '\x0c'

/-- Python `s.strip()`: remove leading and trailing whitespace. -/
def pyStrip (s : String) : String :=
  String.mk (((s.data.dropWhile (fun c => pyIsSpace c)).reverse.dropWhile
    (fun c => pyIsSpace c)).reverse)

/-- Outcome of the compare-button handler in `app.py`: either the blank-input
warning, or the analysis branch which invokes the pipeline on the two raw
question strings. -/
inductive CompareAction where
  | warn : CompareAction
  | analyze : String → String → CompareAction
deriving DecidableEq

/-- The compare-button handler of `app.py` (lines 198-208): if either question
strips to the empty string, a warning is shown and the pipeline is not called;
otherwise `helper.query_point_creator(q1, q2)` is invoked on the raw strings. -/
def compareHandler (q1 q2 : String) : CompareAction :=
  if pyStrip q1 = "" ∨ pyStrip q2 = "" then CompareAction.warn
  else CompareAction.analyze q1 q2

/-- `app.py` line 211: the similarity score is read from the result matrix as
`query[0, 22]`. -/
def appCosineSim (queryMatrix : List (List ℝ)) : ℝ :=
  (queryMatrix.getD 0 []).getD 22 0

/-- The duplicate judgment of `app.py` line 237: the questions are labelled
duplicates exactly when `cosine_sim > similarity_threshold`, where `cosine_sim`
is field 22 of the feature vector. -/
def duplicateVerdict (threshold : ℝ) (v : List ℝ) : Prop :=
  threshold < v.getD 22 0

/-! ## The core pipeline, modelled from the specification

The module `helper` imported by `app.py` is not part of the repository, so the
feature pipeline below is modelled from the specification (§4.1-§4.6). -/

/-- Modelled from the spec: §4.1(b) symbol replacement table of the Text
Normalizer (`helper` module, absent from the repository). -/
def symbolTable : List (String × String) :=
  [("%", " percent "), ("$", " dollar "), ("₹", " rupee "),
   ("€", " euro "), ("@", " at ")]

/-- Modelled from the spec: §4.1(d) fixed table of English contractions. -/
def contractionTable : List (String × String) :=
  [("can\x27t", "can not"), ("won\x27t", "will not"), ("n\x27t", " not"),
   ("\x27ve", " have"), ("\x27re", " are"), ("\x27ll", " will"),
   ("\x27d", " would"), ("\x27s", " is")]

/-- Modelled from the spec: §4.1(e) HTML entity decoding table. -/
def entityTable : List (String × String) :=
  [("&nbsp;", " "), ("&amp;", " and "), ("&lt;", " "), ("&gt;", " ")]

/-- Apply a substitution table left to right by substring replacement. -/
def applyTable (t : List (String × String)) (s : String) : String :=
  t.foldl (fun acc p => acc.replace p.1 p.2) s

/-- Modelled from the spec: §4.1(c) expansion of numeric magnitude suffixes
attached to digits; the boolean records whether the previous character was a
digit. -/
def magExpandAux : Bool → List Char → List Char
  | _, [] => []
  | prevDigit, c :: rest =>
    if prevDigit && c = 'k' then
      '0' :: '0' :: '0' :: magExpandAux false rest
    else if prevDigit && c = 'm' then
      '0' :: '0' :: '0' :: '0' :: '0' :: '0' :: magExpandAux false rest
    else if prevDigit && c = 'b' then
      '0' :: '0' :: '0' :: '0' :: '0' :: '0' :: '0' :: '0' :: '0' :: magExpandAux false rest
    else c :: magExpandAux c.isDigit rest

/-- Modelled from the spec: §4.1(e) HTML tag stripping; the boolean records
whether the scan is inside a tag. -/
def stripTags : Bool → List Char → List Char
  | _, [] => []
  | inTag, c :: rest =>
    if c = '<' then stripTags true rest
    else if c = '>' then stripTags false rest
    else if inTag then stripTags true rest
    else c :: stripTags false rest

/-- Modelled from the spec: §4.1(f) punctuation removal, mapping every
non-alphanumeric character to a space. -/
def punctToSpace (c : Char) : Char := if c.isAlphanum then c else ' '

/-- Split on spaces and drop empty fragments. -/
def tokensOfString (s : String) : List String :=
  (s.split (fun c => c = ' ')).filter (fun t => t ≠ "")

/-- Modelled from the spec: §4.1 Text Normalizer, applying in fixed order
case folding, symbol replacement, magnitude-suffix expansion, contraction
expansion, HTML stripping and entity decoding, punctuation removal, and
whitespace collapsing with trim (`helper` module, absent from the
repository). -/
def preprocess (s : String) : String :=
  let s1 := s.toLower
  let s2 := applyTable symbolTable s1
  let s3 := String.mk (magExpandAux false s2.data)
  let s4 := applyTable contractionTable s3
  let s5 := String.mk (stripTags false s4.data)
  let s6 := applyTable entityTable s5
  let s7 := String.mk (s6.data.map punctToSpace)
  String.intercalate " " (tokensOfString s7)

/-- Token sequence of the normalized question (whitespace split, §3). -/
def tokens (s : String) : List String := tokensOfString (preprocess s)

/-- Modelled from the spec: §4.2 small ε added to denominators to avoid
division by zero. -/
def SAFE_DIV : ℚ := 1 / 10000

/-- A guarded ratio num / (den + ε) as used by every ratio feature (§4.2). -/
def ratioQ (num den : ℕ) : ℚ := (num : ℚ) / ((den : ℚ) + SAFE_DIV)

/-- Size of the intersection of the two token sets (duplicates collapsed). -/
def commonCount (l1 l2 : List String) : ℕ :=
  ((l1.dedup).inter (l2.dedup)).length

/-- Modelled from the spec: §4.2 basic features (7 values): character lengths,
word counts, common-word count, total word count, common-to-total ratio
(`helper` module, absent from the repository). -/
def basicFeatures (q1 q2 : String) : List ℚ :=
  let n1 := preprocess q1
  let n2 := preprocess q2
  let t1 := tokens q1
  let t2 := tokens q2
  [(n1.length : ℚ), (n2.length : ℚ), (t1.length : ℚ), (t2.length : ℚ),
   (commonCount t1 t2 : ℚ), ((t1.length : ℚ) + (t2.length : ℚ)),
   ratioQ (commonCount t1 t2) (t1.length + t2.length)]

/-- Distinct non-stopword tokens of a token list. -/
def nonstopOf (sw : List String) (l : List String) : List String :=
  (l.dedup).filter (fun w => w ∉ sw)

/-- Distinct stopword tokens of a token list. -/
def stopsOf (sw : List String) (l : List String) : List String :=
  (l.dedup).filter (fun w => w ∈ sw)

/-- Encode a boolean feature as 0 or 1. -/
def boolFeat (b : Bool) : ℚ := if b then 1 else 0

/-- Modelled from the spec: §4.2 token features (8 values): common
non-stopword ratio by min and by max, common stopword ratio by min and by
max, common all-token ratio by min and by max, last-token match, first-token
match (`helper` module, absent from the repository). -/
def tokenFeatures (sw : List String) (q1 q2 : String) : List ℚ :=
  let t1 := tokens q1
  let t2 := tokens q2
  let w1 := nonstopOf sw t1
  let w2 := nonstopOf sw t2
  let s1 := stopsOf sw t1
  let s2 := stopsOf sw t2
  let d1 := t1.dedup
  let d2 := t2.dedup
  [ratioQ ((w1.inter w2).length) (min w1.length w2.length),
   ratioQ ((w1.inter w2).length) (max w1.length w2.length),
   ratioQ ((s1.inter s2).length) (min s1.length s2.length),
   ratioQ ((s1.inter s2).length) (max s1.length s2.length),
   ratioQ ((d1.inter d2).length) (min t1.length t2.length),
   ratioQ ((d1.inter d2).length) (max t1.length t2.length),
   boolFeat (t1.getLast? == t2.getLast?),
   boolFeat (t1.head? == t2.head?)]

/-- Length of the common token run at the head of two token sequences. -/
def matchRunLen : List String → List String → ℕ
  | a :: as, b :: bs => if a = b then 1 + matchRunLen as bs else 0
  | _, _ => 0

/-- Longest common token run between a fixed suffix of the first sequence and
any suffix of the second. -/
def bestRunFrom (t2 : List String) (s1 : List String) : ℕ :=
  ((t2.tails).map (fun s2 => matchRunLen s1 s2)).foldr max 0

/-- Modelled from the spec: §4.2 longest common contiguous token run between
the two token sequences (dynamic programming over token sequences). -/
def lcsTokenRun (t1 t2 : List String) : ℕ :=
  ((t1.tails).map (bestRunFrom t2)).foldr max 0

/-- Total character length of a token list. -/
def totalCharLen (l : List String) : ℕ := (l.map String.length).sum

/-- Modelled from the spec: §4.2 length features (3 values): absolute
difference in token counts, mean token length across both questions, and the
longest-common-token-run ratio over the combined token count (`helper`
module, absent from the repository). -/
def lengthFeatures (q1 q2 : String) : List ℚ :=
  let t1 := tokens q1
  let t2 := tokens q2
  [((max t1.length t2.length - min t1.length t2.length : ℕ) : ℚ),
   ratioQ (totalCharLen t1 + totalCharLen t2) (t1.length + t2.length),
   ratioQ (lcsTokenRun t1 t2) (t1.length + t2.length)]

/-- Longest common subsequence length of two character lists, the matching
core of an edit-distance ratio. -/
def lcsq : List Char → List Char → ℕ
  | [], _ => 0
  | _ :: _, [] => 0
  | a :: as, b :: bs =>
    if a = b then 1 + lcsq as bs
    else max (lcsq as (b :: bs)) (lcsq (a :: as) bs)
termination_by l1 l2 => l1.length + l2.length

/-- Modelled from the spec: §4.3 whole-string edit-distance ratio on the
percentage scale, computed from matched characters over total length. -/
def fuzzRatioN (a b : List Char) : ℕ :=
  if a.length + b.length = 0 then 100
  else (200 * lcsq a b) / (a.length + b.length)

/-- All length-n contiguous windows of a character list. -/
def windowsOf (n : ℕ) (l : List Char) : List (List Char) :=
  ((l.tails).map (fun t => t.take n)).filter (fun w => w.length = n)

/-- Modelled from the spec: §4.3 substring-aligned ratio: best whole-string
ratio of the shorter string against every same-length window of the longer. -/
def windowRatioN (a b : List Char) : ℕ :=
  let s := if a.length ≤ b.length then a else b
  let l := if a.length ≤ b.length then b else a
  ((windowsOf s.length l).map (fun w => fuzzRatioN s w)).foldr max 0

/-- Insert a token into an alphabetically sorted token list. -/
def insertSorted (w : String) : List String → List String
  | [] => [w]
  | x :: xs => if w < x then w :: x :: xs else x :: insertSorted w xs

/-- Sort a token list alphabetically. -/
def sortTokens : List String → List String
  | [] => []
  | x :: xs => insertSorted x (sortTokens xs)

/-- Rejoin a token list with single spaces. -/
def joinTokens (l : List String) : String := String.intercalate " " l

/-- Modelled from the spec: §4.3 ratio after sorting each string's tokens
alphabetically and rejoining. -/
def tokenSortRatioN (t1 t2 : List String) : ℕ :=
  fuzzRatioN (joinTokens (sortTokens t1)).data (joinTokens (sortTokens t2)).data

/-- Modelled from the spec: §4.3 ratio after forming the set
union/intersection of tokens and comparing: best ratio among the sorted
intersection string and the two intersection-plus-difference strings. -/
def tokenSetRatioN (t1 t2 : List String) : ℕ :=
  let i := sortTokens ((t1.dedup).inter (t2.dedup))
  let d12 := sortTokens ((t1.dedup).filter (fun w => w ∉ t2.dedup))
  let d21 := sortTokens ((t2.dedup).filter (fun w => w ∉ t1.dedup))
  let a0 := (joinTokens i).data
  let a1 := (joinTokens (i ++ d12)).data
  let a2 := (joinTokens (i ++ d21)).data
  max (fuzzRatioN a0 a1) (max (fuzzRatioN a0 a2) (fuzzRatioN a1 a2))

/-- Modelled from the spec: §4.3 Fuzzy Match Extractor (4 values in [0,100]):
plain ratio, substring-aligned ratio, token-sort ratio, token-set ratio
(`helper` module, absent from the repository). -/
def fuzzyFeatures (q1 q2 : String) : List ℚ :=
  [((fuzzRatioN (preprocess q1).data (preprocess q2).data : ℕ) : ℚ),
   ((windowRatioN (preprocess q1).data (preprocess q2).data : ℕ) : ℚ),
   ((tokenSortRatioN (tokens q1) (tokens q2) : ℕ) : ℚ),
   ((tokenSetRatioN (tokens q1) (tokens q2) : ℕ) : ℚ)]

/-- Modelled from the spec: §4.4 Vector-Space Embedder: position i of the
output holds the count of occurrences of vocabulary token i in the question's
token sequence; out-of-vocabulary tokens contribute nothing. -/
def embed (vocab : List String) (toks : List String) : List ℕ :=
  vocab.map (fun w => toks.count w)

/-- Dot product of two count vectors (missing positions count as zero). -/
def dotN : List ℕ → List ℕ → ℕ
  | [], _ => 0
  | _ :: _, [] => 0
  | a :: as, b :: bs => a * b + dotN as bs

/-- Modelled from the spec: §4.5 Similarity Scorer, squared form: the square
of cosine similarity dot(a,b)² / (dot(a,a)·dot(b,b)), defined as 0 when
either vector has zero norm. -/
def cosineSimSq (v1 v2 : List ℕ) : ℚ :=
  if dotN v1 v1 = 0 ∨ dotN v2 v2 = 0 then 0
  else ((dotN v1 v2 : ℚ)) ^ 2 / ((dotN v1 v1 : ℚ) * (dotN v2 v2 : ℚ))

/-- Modelled from the spec: §4.5 cosine similarity characterized exactly: c is
the cosine similarity of the two count vectors iff c is the nonnegative real
whose square is `cosineSimSq` (equivalently dot(a,b)/(‖a‖·‖b‖) with the
zero-norm guard). -/
def IsCosineSim (v1 v2 : List ℕ) (c : ℝ) : Prop :=
  0 ≤ c ∧ c ^ 2 = ((cosineSimSq v1 v2 : ℚ) : ℝ)

/-- The 22 numeric features before the cosine entry, in assembler order
(§4.6): basic (7), token (8), length (3), fuzzy (4). -/
def features22 (sw : List String) (q1 q2 : String) : List ℚ :=
  basicFeatures q1 q2 ++ tokenFeatures sw q1 q2 ++
    lengthFeatures q1 q2 ++ fuzzyFeatures q1 q2

/-- Modelled from the spec: §4.6 Feature Vector Assembler / §6
`compute_features`: v is the assembled 23-entry feature vector for the pair
(q1, q2) under the frozen vocabulary and stopword list (`helper` module,
absent from the repository). -/
def IsComputeFeatures (vocab sw : List String) (q1 q2 : String)
    (v : List ℝ) : Prop :=
  ∃ c : ℝ, IsCosineSim (embed vocab (tokens q1)) (embed vocab (tokens q2)) c ∧
    v = (features22 sw q1 q2).map (fun x : ℚ => (x : ℝ)) ++ [c]

/-- Modelled from the spec: §6 convenience `score`: c is the similarity score
of the pair, i.e. its cosine similarity. -/
def IsScore (vocab : List String) (q1 q2 : String) (c : ℝ) : Prop :=
  IsCosineSim (embed vocab (tokens q1)) (embed vocab (tokens q2)) c

/-- Modelled from the spec: the pipeline entry point
`helper.query_point_creator` actually invoked by `app.py` line 208: it
returns a pair of a 1×23 row matrix holding the feature vector and a result
message (shape taken from the call site, which unpacks a pair and indexes
`query[0, i]`). -/
def IsQueryPointCreator (vocab sw : List String) (q1 q2 : String)
    (res : List (List ℝ) × String) : Prop :=
  ∃ v, IsComputeFeatures vocab sw q1 q2 v ∧ res.1 = [v]

/-! ## Auxiliary bound lemmas -/

theorem SAFE_DIV_pos : 0 < SAFE_DIV := by norm_num [SAFE_DIV]

theorem ratioQ_nonneg (m n : ℕ) : 0 ≤ ratioQ m n := by
  unfold ratioQ SAFE_DIV
  positivity

theorem ratioQ_le_one (m n : ℕ) (h : m ≤ n) : ratioQ m n ≤ 1 := by
  unfold ratioQ
  rw [div_le_one (by unfold SAFE_DIV; positivity)]
  have h1 : (m : ℚ) ≤ (n : ℚ) := by exact_mod_cast h
  have := SAFE_DIV_pos
  linarith

theorem inter_length_le_left (l1 l2 : List String) :
    (l1.inter l2).length ≤ l1.length :=
  (List.filter_sublist l1).length_le

theorem inter_length_le_right (l1 l2 : List String) (h : l1.Nodup) :
    (l1.inter l2).length ≤ l2.length := by
  have nd : (l1.inter l2).Nodup := h.filter _
  have sub : l1.inter l2 ⊆ l2 := List.inter_subset_right
  exact (List.subperm_of_subset nd sub).length_le

theorem inter_length_le_min (l1 l2 : List String) (h : l1.Nodup) :
    (l1.inter l2).length ≤ min l1.length l2.length :=
  le_min (inter_length_le_left l1 l2) (inter_length_le_right l1 l2 h)

theorem dedup_length_le (l : List String) : l.dedup.length ≤ l.length :=
  (List.dedup_sublist l).length_le

theorem foldr_max_le (l : List ℕ) (k : ℕ) (h : ∀ x ∈ l, x ≤ k) :
    l.foldr max 0 ≤ k := by
  induction l with
  | nil => exact Nat.zero_le k
  | cons a as ih =>
    simp only [List.foldr_cons]
    exact max_le (h a (by simp)) (ih (fun x hx => h x (by simp [hx])))

theorem matchRunLen_le (s1 s2 : List String) : matchRunLen s1 s2 ≤ s1.length := by
  induction s1 generalizing s2 with
  | nil => cases s2 <;> simp [matchRunLen]
  | cons a as ih =>
    cases s2 with
    | nil => simp [matchRunLen]
    | cons b bs =>
      by_cases hab : a = b
      · have := ih bs
        simp only [matchRunLen, if_pos hab, List.length_cons]
        omega
      · simp [matchRunLen, hab]

theorem bestRunFrom_le (t2 s1 : List String) : bestRunFrom t2 s1 ≤ s1.length := by
  unfold bestRunFrom
  refine foldr_max_le _ _ ?_
  intro x hx
  simp only [List.mem_map] at hx
  obtain ⟨s2, _, rfl⟩ := hx
  exact matchRunLen_le s1 s2

theorem lcsTokenRun_le_left (t1 t2 : List String) :
    lcsTokenRun t1 t2 ≤ t1.length := by
  unfold lcsTokenRun
  refine foldr_max_le _ _ ?_
  intro x hx
  simp only [List.mem_map] at hx
  obtain ⟨s1, hs1, rfl⟩ := hx
  calc bestRunFrom t2 s1 ≤ s1.length := bestRunFrom_le t2 s1
    _ ≤ t1.length := ((List.mem_tails s1 t1).mp hs1).sublist.length_le

theorem lcsq_le_bounded (n : ℕ) : ∀ a b : List Char,
    a.length + b.length ≤ n → lcsq a b ≤ a.length ∧ lcsq a b ≤ b.length := by
  induction n with
  | zero =>
    intro a b h
    cases a <;> cases b <;> simp_all [lcsq]
  | succ n ih =>
    intro a b h
    cases a with
    | nil => simp [lcsq]
    | cons x xs =>
      cases b with
      | nil => simp [lcsq]
      | cons y ys =>
        simp only [List.length_cons] at h
        by_cases hxy : x = y
        · have h1 := ih xs ys (by omega)
          simp only [lcsq, if_pos hxy, List.length_cons]
          omega
        · have h1 := ih xs (y :: ys) (by simp; omega)
          have h2 := ih (x :: xs) ys (by simp; omega)
          simp only [List.length_cons] at h1 h2
          simp only [lcsq, if_neg hxy, List.length_cons]
          omega

theorem lcsq_le_left (a b : List Char) : lcsq a b ≤ a.length :=
  (lcsq_le_bounded (a.length + b.length) a b le_rfl).1

theorem lcsq_le_right (a b : List Char) : lcsq a b ≤ b.length :=
  (lcsq_le_bounded (a.length + b.length) a b le_rfl).2

theorem fuzzRatioN_le (a b : List Char) : fuzzRatioN a b ≤ 100 := by
  unfold fuzzRatioN
  split
  · exact le_rfl
  · rename_i h
    have h1 := lcsq_le_left a b
    have h2 := lcsq_le_right a b
    have h3 : 200 * lcsq a b ≤ 100 * (a.length + b.length) := by omega
    calc 200 * lcsq a b / (a.length + b.length)
        ≤ 100 * (a.length + b.length) / (a.length + b.length) :=
          Nat.div_le_div_right h3
      _ = 100 := Nat.mul_div_cancel _ (Nat.pos_of_ne_zero h)

theorem windowRatioN_le (a b : List Char) : windowRatioN a b ≤ 100 := by
  simp only [windowRatioN]
  refine foldr_max_le _ _ ?_
  intro x hx
  simp only [List.mem_map] at hx
  obtain ⟨w, _, rfl⟩ := hx
  exact fuzzRatioN_le _ _

theorem tokenSortRatioN_le (t1 t2 : List String) : tokenSortRatioN t1 t2 ≤ 100 :=
  fuzzRatioN_le _ _

theorem tokenSetRatioN_le (t1 t2 : List String) : tokenSetRatioN t1 t2 ≤ 100 := by
  simp only [tokenSetRatioN]
  exact max_le (fuzzRatioN_le _ _) (max_le (fuzzRatioN_le _ _) (fuzzRatioN_le _ _))

theorem dotN_cauchy_schwarz (a b : List ℕ) :
    ((dotN a b : ℚ)) ^ 2 ≤ (dotN a a : ℚ) * (dotN b b : ℚ) := by
  induction a generalizing b with
  | nil => simp [dotN]
  | cons x xs ih =>
    cases b with
    | nil => simp [dotN]
    | cons y ys =>
      have hS : ((dotN xs ys : ℚ)) ^ 2 ≤ (dotN xs xs : ℚ) * (dotN ys ys : ℚ) := ih ys
      have hx : (0 : ℚ) ≤ (x : ℚ) := Nat.cast_nonneg x
      have hy : (0 : ℚ) ≤ (y : ℚ) := Nat.cast_nonneg y
      have hSn : (0 : ℚ) ≤ (dotN xs ys : ℚ) := Nat.cast_nonneg _
      have hA : (0 : ℚ) ≤ (dotN xs xs : ℚ) := Nat.cast_nonneg _
      have hB : (0 : ℚ) ≤ (dotN ys ys : ℚ) := Nat.cast_nonneg _
      have key : 2 * (x : ℚ) * (y : ℚ) * (dotN xs ys : ℚ) ≤
          (x : ℚ) ^ 2 * (dotN ys ys : ℚ) + (y : ℚ) ^ 2 * (dotN xs xs : ℚ) := by
        have h4 : (2 * (x : ℚ) * (y : ℚ) * (dotN xs ys : ℚ)) ^ 2 ≤
            ((x : ℚ) ^ 2 * (dotN ys ys : ℚ) + (y : ℚ) ^ 2 * (dotN xs xs : ℚ)) ^ 2 := by
          nlinarith [sq_nonneg ((x : ℚ) ^ 2 * (dotN ys ys : ℚ) -
            (y : ℚ) ^ 2 * (dotN xs xs : ℚ)), hS, sq_nonneg ((x : ℚ) * (y : ℚ))]
        have h5 : (0 : ℚ) ≤ 2 * (x : ℚ) * (y : ℚ) * (dotN xs ys : ℚ) := by positivity
        have h6 : (0 : ℚ) ≤ (x : ℚ) ^ 2 * (dotN ys ys : ℚ) +
            (y : ℚ) ^ 2 * (dotN xs xs : ℚ) := by positivity
        exact (pow_le_pow_iff_left₀ h5 h6 two_ne_zero).mp h4
      simp only [dotN]
      push_cast
      nlinarith [key, hS]

theorem cosineSimSq_nonneg (v1 v2 : List ℕ) : 0 ≤ cosineSimSq v1 v2 := by
  unfold cosineSimSq
  split
  · exact le_rfl
  · positivity

theorem cosineSimSq_le_one (v1 v2 : List ℕ) : cosineSimSq v1 v2 ≤ 1 := by
  unfold cosineSimSq
  split
  · norm_num
  · rename_i h
    push_neg at h
    obtain ⟨h1, h2⟩ := h
    have hA : (0 : ℚ) < (dotN v1 v1 : ℚ) := by exact_mod_cast Nat.pos_of_ne_zero h1
    have hB : (0 : ℚ) < (dotN v2 v2 : ℚ) := by exact_mod_cast Nat.pos_of_ne_zero h2
    rw [div_le_one (by positivity)]
    exact dotN_cauchy_schwarz v1 v2

theorem isCosineSim_exists (v1 v2 : List ℕ) : ∃ c, IsCosineSim v1 v2 c :=
  ⟨Real.sqrt ((cosineSimSq v1 v2 : ℚ) : ℝ), Real.sqrt_nonneg _,
    Real.sq_sqrt (by exact_mod_cast cosineSimSq_nonneg v1 v2)⟩

theorem isCosineSim_unique (v1 v2 : List ℕ) (c c' : ℝ)
    (h : IsCosineSim v1 v2 c) (h' : IsCosineSim v1 v2 c') : c = c' :=
  (sq_eq_sq₀ h.1 h'.1).mp (h.2.trans h'.2.symm)

theorem isCosineSim_mem_unit (v1 v2 : List ℕ) (c : ℝ)
    (h : IsCosineSim v1 v2 c) : 0 ≤ c ∧ c ≤ 1 := by
  obtain ⟨h0, h2⟩ := h
  have hle : ((cosineSimSq v1 v2 : ℚ) : ℝ) ≤ 1 := by
    exact_mod_cast cosineSimSq_le_one v1 v2
  refine ⟨h0, ?_⟩
  nlinarith [sq_nonneg (c - 1)]

theorem isCosineSim_zero_norm (v1 v2 : List ℕ) (c : ℝ)
    (hz : dotN v1 v1 = 0 ∨ dotN v2 v2 = 0) (h : IsCosineSim v1 v2 c) : c = 0 := by
  obtain ⟨h0, h2⟩ := h
  have : cosineSimSq v1 v2 = 0 := by unfold cosineSimSq; rw [if_pos hz]
  rw [this] at h2
  have hsq : c ^ 2 = 0 := by simpa using h2
  exact pow_eq_zero_iff two_ne_zero |>.mp hsq

theorem isCosineSim_self_one (v : List ℕ) (c : ℝ)
    (hnz : dotN v v ≠ 0) (h : IsCosineSim v v c) : c = 1 := by
  obtain ⟨h0, h2⟩ := h
  have hd : ((dotN v v : ℕ) : ℚ) ≠ 0 := Nat.cast_ne_zero.mpr hnz
  have : cosineSimSq v v = 1 := by
    unfold cosineSimSq
    rw [if_neg (by push_neg; exact ⟨hnz, hnz⟩)]
    field_simp
    ring
  rw [this] at h2
  have hsq : c ^ 2 = 1 ^ 2 := by simpa using h2
  exact (sq_eq_sq₀ h0 zero_le_one).mp hsq

theorem embed_self_dot_zero_iff (vocab toks : List String) :
    dotN (embed vocab toks) (embed vocab toks) = 0 ↔ ∀ w ∈ vocab, w ∉ toks := by
  induction vocab with
  | nil => simp [embed, dotN]
  | cons w vs ih =>
    simp only [embed, List.map_cons, dotN, Nat.add_eq_zero, mul_self_eq_zero,
      List.count_eq_zero, List.forall_mem_cons]
    simp only [embed] at ih
    rw [ih]

theorem getD_append_singleton (l1 : List ℝ) (c : ℝ) (n : ℕ) (h : l1.length = n) :
    (l1 ++ [c]).getD n 0 = c := by
  subst h
  induction l1 with
  | nil => rfl
  | cons x xs ih => simp only [List.cons_append, List.getD_cons_succ]; exact ih

theorem features22_length (sw : List String) (q1 q2 : String) :
    (features22 sw q1 q2).length = 22 := rfl

theorem basicFeatures_length (q1 q2 : String) : (basicFeatures q1 q2).length = 7 := rfl

theorem tokenFeatures_length (sw : List String) (q1 q2 : String) :
    (tokenFeatures sw q1 q2).length = 8 := rfl

theorem lengthFeatures_length (q1 q2 : String) : (lengthFeatures q1 q2).length = 3 := rfl

theorem fuzzyFeatures_length (q1 q2 : String) : (fuzzyFeatures q1 q2).length = 4 := rfl

theorem take_len_append {α : Type} (l1 l2 : List α) (n : ℕ) (h : l1.length = n) :
    (l1 ++ l2).take n = l1 := by
  subst h
  simp

theorem drop_len_append {α : Type} (l1 l2 : List α) (n : ℕ) (h : l1.length = n) :
    (l1 ++ l2).drop n = l2 := by
  subst h
  simp

theorem computeFeatures_split (vocab sw : List String) (q1 q2 : String) (v : List ℝ)
    (h : IsComputeFeatures vocab sw q1 q2 v) :
    ∃ c, IsCosineSim (embed vocab (tokens q1)) (embed vocab (tokens q2)) c ∧
      v = (basicFeatures q1 q2).map (fun x : ℚ => (x : ℝ)) ++
        ((tokenFeatures sw q1 q2).map (fun x : ℚ => (x : ℝ)) ++
          ((lengthFeatures q1 q2).map (fun x : ℚ => (x : ℝ)) ++
            ((fuzzyFeatures q1 q2).map (fun x : ℚ => (x : ℝ)) ++ [c]))) := by
  obtain ⟨c, hc, rfl⟩ := h
  exact ⟨c, hc, by simp [features22, List.map_append, List.append_assoc]⟩

theorem computeFeatures_length (vocab sw : List String) (q1 q2 : String) (v : List ℝ)
    (h : IsComputeFeatures vocab sw q1 q2 v) : v.length = 23 := by
  obtain ⟨c, _, rfl⟩ := h
  simp [List.length_append, List.length_map, features22_length]

theorem commonCount_le_total (t1 t2 : List String) :
    commonCount t1 t2 ≤ t1.length + t2.length :=
  le_trans (le_trans (inter_length_le_left _ _) (dedup_length_le t1))
    (Nat.le_add_right _ _)

/-! ## Claim theorems -/

/-- C1: for every pair of input strings, the pipeline output is a single
fixed-order feature vector of exactly 23 numeric fields, laid out as indices
0-6 basic features, 7-14 token features, 15-17 length features, 18-21 fuzzy
features, 22 cosine similarity; this order and count is the same on every
call. -/
theorem feature_vector_layout (vocab sw : List String) (q1 q2 : String) (v : List ℝ)
    (h : IsComputeFeatures vocab sw q1 q2 v) :
    v.length = 23 ∧
    v.take 7 = (basicFeatures q1 q2).map (fun x : ℚ => (x : ℝ)) ∧
    (v.drop 7).take 8 = (tokenFeatures sw q1 q2).map (fun x : ℚ => (x : ℝ)) ∧
    (v.drop 15).take 3 = (lengthFeatures q1 q2).map (fun x : ℚ => (x : ℝ)) ∧
    (v.drop 18).take 4 = (fuzzyFeatures q1 q2).map (fun x : ℚ => (x : ℝ)) ∧
    ∃ c, IsCosineSim (embed vocab (tokens q1)) (embed vocab (tokens q2)) c ∧
      v.drop 22 = [c] := by
  obtain ⟨c, hc, hv⟩ := computeFeatures_split vocab sw q1 q2 v h
  have hb : ((basicFeatures q1 q2).map (fun x : ℚ => (x : ℝ))).length = 7 := by
    rw [List.length_map, basicFeatures_length]
  have ht : ((tokenFeatures sw q1 q2).map (fun x : ℚ => (x : ℝ))).length = 8 := by
    rw [List.length_map, tokenFeatures_length]
  have hl : ((lengthFeatures q1 q2).map (fun x : ℚ => (x : ℝ))).length = 3 := by
    rw [List.length_map, lengthFeatures_length]
  have hf : ((fuzzyFeatures q1 q2).map (fun x : ℚ => (x : ℝ))).length = 4 := by
    rw [List.length_map, fuzzyFeatures_length]
  have d7 : v.drop 7 =
      (tokenFeatures sw q1 q2).map (fun x : ℚ => (x : ℝ)) ++
        ((lengthFeatures q1 q2).map (fun x : ℚ => (x : ℝ)) ++
          ((fuzzyFeatures q1 q2).map (fun x : ℚ => (x : ℝ)) ++ [c])) := by
    rw [hv]; exact drop_len_append _ _ _ hb
  have d15 : v.drop 15 =
      (lengthFeatures q1 q2).map (fun x : ℚ => (x : ℝ)) ++
        ((fuzzyFeatures q1 q2).map (fun x : ℚ => (x : ℝ)) ++ [c]) := by
    have e : (v.drop 7).drop 8 = v.drop 15 := by simp
    rw [← e, d7]; exact drop_len_append _ _ _ ht
  have d18 : v.drop 18 =
      (fuzzyFeatures q1 q2).map (fun x : ℚ => (x : ℝ)) ++ [c] := by
    have e : (v.drop 15).drop 3 = v.drop 18 := by simp
    rw [← e, d15]; exact drop_len_append _ _ _ hl
  have d22 : v.drop 22 = [c] := by
    have e : (v.drop 18).drop 4 = v.drop 22 := by simp
    rw [← e, d18]; exact drop_len_append _ _ _ hf
  refine ⟨computeFeatures_length vocab sw q1 q2 v h, ?_, ?_, ?_, ?_, c, hc, d22⟩
  · rw [hv]; exact take_len_append _ _ _ hb
  · rw [d7]; exact take_len_append _ _ _ ht
  · rw [d15]; exact take_len_append _ _ _ hl
  · rw [d18]; exact take_len_append _ _ _ hf

/-- Witness for `feature_vector_layout` at a concrete input pair, with the
empty vocabulary (so the cosine entry is 0 by the zero-norm guard). -/
theorem feature_vector_layout_witness :
    ((features22 [] "hello" "world").map (fun x : ℚ => (x : ℝ)) ++ [(0 : ℝ)]).length = 23 :=
  (feature_vector_layout [] [] "hello" "world" _
    ⟨0, ⟨le_rfl, by simp [cosineSimSq, dotN, embed]⟩, rfl⟩).1

/-- C2: the core exposes the feature-computation operation returning the
23-value feature vector, with the similarity score equal to field 22; the
presentation layer invokes the pipeline with exactly the two question strings
(when neither is blank) and the value it reads via `query[0, 22]` is that
score. -/
theorem core_interface_score_field22 (vocab sw : List String) (q1 q2 : String)
    (res : List (List ℝ) × String)
    (h1 : pyStrip q1 ≠ "") (h2 : pyStrip q2 ≠ "")
    (hres : IsQueryPointCreator vocab sw q1 q2 res) :
    compareHandler q1 q2 = CompareAction.analyze q1 q2 ∧
    (∀ v, IsComputeFeatures vocab sw q1 q2 v → v.length = 23) ∧
    IsScore vocab q1 q2 (appCosineSim res.1) := by
  refine ⟨by simp [compareHandler, h1, h2], fun v hv => computeFeatures_length _ _ _ _ _ hv, ?_⟩
  obtain ⟨v, ⟨c, hcos, hveq⟩, hrow⟩ := hres
  have hread : appCosineSim res.1 = c := by
    unfold appCosineSim
    rw [hrow]
    show v.getD 22 0 = c
    rw [hveq]
    exact getD_append_singleton _ c 22 (by rw [List.length_map, features22_length])
  rw [hread]
  exact hcos

/-- Witness for `core_interface_score_field22` at a concrete non-blank input
pair and a concrete pipeline result. -/
theorem core_interface_score_field22_witness :
    compareHandler "hello" "world" = CompareAction.analyze "hello" "world" :=
  (core_interface_score_field22 [] [] "hello" "world"
    ([(features22 [] "hello" "world").map (fun x : ℚ => (x : ℝ)) ++ [(0 : ℝ)]], "ok")
    (by decide) (by decide)
    ⟨_, ⟨0, ⟨le_rfl, by simp [cosineSimSq, dotN, embed]⟩, rfl⟩, rfl⟩).1

/-- C5: for every pair of input strings, each fuzzy feature (indices 18-21)
lies in [0, 100], the cosine similarity (index 22) lies in [0, 1], and every
ratio feature (indices 6, 7-12, 17) lies in [0, 1]. -/
theorem feature_ranges (vocab sw : List String) (q1 q2 : String) (v : List ℝ)
    (h : IsComputeFeatures vocab sw q1 q2 v) :
    (0 ≤ v.getD 18 0 ∧ v.getD 18 0 ≤ 100) ∧
    (0 ≤ v.getD 19 0 ∧ v.getD 19 0 ≤ 100) ∧
    (0 ≤ v.getD 20 0 ∧ v.getD 20 0 ≤ 100) ∧
    (0 ≤ v.getD 21 0 ∧ v.getD 21 0 ≤ 100) ∧
    (0 ≤ v.getD 22 0 ∧ v.getD 22 0 ≤ 1) ∧
    (0 ≤ v.getD 6 0 ∧ v.getD 6 0 ≤ 1) ∧
    (0 ≤ v.getD 7 0 ∧ v.getD 7 0 ≤ 1) ∧
    (0 ≤ v.getD 8 0 ∧ v.getD 8 0 ≤ 1) ∧
    (0 ≤ v.getD 9 0 ∧ v.getD 9 0 ≤ 1) ∧
    (0 ≤ v.getD 10 0 ∧ v.getD 10 0 ≤ 1) ∧
    (0 ≤ v.getD 11 0 ∧ v.getD 11 0 ≤ 1) ∧
    (0 ≤ v.getD 12 0 ∧ v.getD 12 0 ≤ 1) ∧
    (0 ≤ v.getD 17 0 ∧ v.getD 17 0 ≤ 1) := by
  obtain ⟨c, hc, rfl⟩ := h
  have cast01 : ∀ q : ℚ, 0 ≤ q → q ≤ 1 → (0 : ℝ) ≤ (q : ℝ) ∧ (q : ℝ) ≤ 1 :=
    fun q a b => ⟨by exact_mod_cast a, by exact_mod_cast b⟩
  have cast100 : ∀ n : ℕ, n ≤ 100 → (0 : ℝ) ≤ ((n : ℚ) : ℝ) ∧ ((n : ℚ) : ℝ) ≤ 100 :=
    fun n hn => ⟨by exact_mod_cast Nat.zero_le n, by exact_mod_cast hn⟩
  have hnd1 : (nonstopOf sw (tokens q1)).Nodup := (List.nodup_dedup _).filter _
  have hnd1s : (stopsOf sw (tokens q1)).Nodup := (List.nodup_dedup _).filter _
  have h7 := inter_length_le_min (nonstopOf sw (tokens q1)) (nonstopOf sw (tokens q2)) hnd1
  have h8 : ((nonstopOf sw (tokens q1)).inter (nonstopOf sw (tokens q2))).length ≤
      max (nonstopOf sw (tokens q1)).length (nonstopOf sw (tokens q2)).length :=
    le_trans (inter_length_le_left _ _) (le_max_left _ _)
  have h9 := inter_length_le_min (stopsOf sw (tokens q1)) (stopsOf sw (tokens q2)) hnd1s
  have h10 : ((stopsOf sw (tokens q1)).inter (stopsOf sw (tokens q2))).length ≤
      max (stopsOf sw (tokens q1)).length (stopsOf sw (tokens q2)).length :=
    le_trans (inter_length_le_left _ _) (le_max_left _ _)
  have h11 : (((tokens q1).dedup).inter ((tokens q2).dedup)).length ≤
      min (tokens q1).length (tokens q2).length :=
    le_trans (inter_length_le_min _ _ (List.nodup_dedup _))
      (min_le_min (dedup_length_le _) (dedup_length_le _))
  have h12 : (((tokens q1).dedup).inter ((tokens q2).dedup)).length ≤
      max (tokens q1).length (tokens q2).length :=
    le_trans (inter_length_le_left _ _)
      (le_trans (dedup_length_le _) (le_max_left _ _))
  have h17 : lcsTokenRun (tokens q1) (tokens q2) ≤
      (tokens q1).length + (tokens q2).length :=
    le_trans (lcsTokenRun_le_left _ _) (Nat.le_add_right _ _)
  refine ⟨?_, ?_, ?_, ?_, ?_, ?_, ?_, ?_, ?_, ?_, ?_, ?_, ?_⟩
  · exact cast100 _ (fuzzRatioN_le _ _)
  · exact cast100 _ (windowRatioN_le _ _)
  · exact cast100 _ (tokenSortRatioN_le _ _)
  · exact cast100 _ (tokenSetRatioN_le _ _)
  · exact isCosineSim_mem_unit _ _ c hc
  · exact cast01 _ (ratioQ_nonneg _ _)
      (ratioQ_le_one _ _ (commonCount_le_total (tokens q1) (tokens q2)))
  · exact cast01 _ (ratioQ_nonneg _ _) (ratioQ_le_one _ _ h7)
  · exact cast01 _ (ratioQ_nonneg _ _) (ratioQ_le_one _ _ h8)
  · exact cast01 _ (ratioQ_nonneg _ _) (ratioQ_le_one _ _ h9)
  · exact cast01 _ (ratioQ_nonneg _ _) (ratioQ_le_one _ _ h10)
  · exact cast01 _ (ratioQ_nonneg _ _) (ratioQ_le_one _ _ h11)
  · exact cast01 _ (ratioQ_nonneg _ _) (ratioQ_le_one _ _ h12)
  · exact cast01 _ (ratioQ_nonneg _ _) (ratioQ_le_one _ _ h17)

/-- Witness for `feature_ranges` at a concrete input pair with the empty
vocabulary. -/
theorem feature_ranges_witness :
    0 ≤ ((features22 [] "hello" "world").map (fun x : ℚ => (x : ℝ)) ++
      [(0 : ℝ)]).getD 18 0 :=
  ((feature_ranges [] [] "hello" "world" _
    ⟨0, ⟨le_rfl, by simp [cosineSimSq, dotN, embed]⟩, rfl⟩).1).1

/-- C6: the pipeline always produces a feature vector (the scorer never
propagates an exception), and when either question's embedding has zero norm
the cosine-similarity field 22 is 0. -/
theorem zero_norm_cosine_zero (vocab sw : List String) (q1 q2 : String) :
    (∃ v, IsComputeFeatures vocab sw q1 q2 v) ∧
    ∀ v, IsComputeFeatures vocab sw q1 q2 v →
      (dotN (embed vocab (tokens q1)) (embed vocab (tokens q1)) = 0 ∨
       dotN (embed vocab (tokens q2)) (embed vocab (tokens q2)) = 0) →
      v.getD 22 0 = 0 := by
  constructor
  · obtain ⟨c, hc⟩ := isCosineSim_exists (embed vocab (tokens q1)) (embed vocab (tokens q2))
    exact ⟨_, c, hc, rfl⟩
  · rintro v ⟨c, hc, rfl⟩ hz
    exact isCosineSim_zero_norm _ _ c hz hc

/-- Witness for `zero_norm_cosine_zero`: with the empty vocabulary both
embeddings are zero-norm, and field 22 is 0. -/
theorem zero_norm_cosine_zero_witness :
    ((features22 [] "a" "b").map (fun x : ℚ => (x : ℝ)) ++ [(0 : ℝ)]).getD 22 0 = 0 :=
  (zero_norm_cosine_zero [] [] "a" "b").2 _
    ⟨0, ⟨le_rfl, by simp [cosineSimSq, dotN, embed]⟩, rfl⟩ (Or.inl rfl)

/-- C7: comparing a question with itself yields cosine similarity 1 when it
contains at least one in-vocabulary token, and 0 (by the zero-norm guard)
when it contains none. -/
theorem self_similarity (vocab sw : List String) (a : String) (v : List ℝ)
    (h : IsComputeFeatures vocab sw a a v) :
    ((∃ t ∈ tokens a, t ∈ vocab) → v.getD 22 0 = 1) ∧
    ((¬ ∃ t ∈ tokens a, t ∈ vocab) → v.getD 22 0 = 0) := by
  obtain ⟨c, hc, rfl⟩ := h
  constructor
  · intro hin
    have hnz : dotN (embed vocab (tokens a)) (embed vocab (tokens a)) ≠ 0 := by
      rw [ne_eq, embed_self_dot_zero_iff]
      push_neg
      obtain ⟨t, ht, hv⟩ := hin
      exact ⟨t, hv, ht⟩
    exact isCosineSim_self_one _ c hnz hc
  · intro hnotin
    have hz : dotN (embed vocab (tokens a)) (embed vocab (tokens a)) = 0 := by
      rw [embed_self_dot_zero_iff]
      intro w hw hwt
      exact hnotin ⟨w, hwt, hw⟩
    exact isCosineSim_zero_norm _ _ c (Or.inl hz) hc

/-- Witness for `self_similarity`: with the empty vocabulary no token is
in-vocabulary and the self-similarity is 0. -/
theorem self_similarity_witness :
    ((features22 [] "hello" "hello").map (fun x : ℚ => (x : ℝ)) ++
      [(0 : ℝ)]).getD 22 0 = 0 :=
  (self_similarity [] [] "hello" _
    ⟨0, ⟨le_rfl, by simp [cosineSimSq, dotN, embed]⟩, rfl⟩).2 (by simp)

/-- C8: the pipeline is deterministic: any two feature vectors computed for
the same input pair under the same vocabulary and stopword list are equal. -/
theorem pipeline_deterministic (vocab sw : List String) (q1 q2 : String)
    (v v' : List ℝ) (h : IsComputeFeatures vocab sw q1 q2 v)
    (h' : IsComputeFeatures vocab sw q1 q2 v') : v = v' := by
  obtain ⟨c, hc, rfl⟩ := h
  obtain ⟨c', hc', rfl⟩ := h'
  rw [isCosineSim_unique _ _ c c' hc hc']

/-- Witness for `pipeline_deterministic` at a concrete input pair. -/
theorem pipeline_deterministic_witness :
    ((features22 [] "hi" "yo").map (fun x : ℚ => (x : ℝ)) ++ [(0 : ℝ)]) =
    ((features22 [] "hi" "yo").map (fun x : ℚ => (x : ℝ)) ++ [(0 : ℝ)]) :=
  pipeline_deterministic [] [] "hi" "yo" _ _
    ⟨0, ⟨le_rfl, by simp [cosineSimSq, dotN, embed]⟩, rfl⟩
    ⟨0, ⟨le_rfl, by simp [cosineSimSq, dotN, embed]⟩, rfl⟩

/-- C9: the invoked entry point returns a pair of a 1×23 row matrix and a
message, so callers read feature i as `query[0, i]`: row 0 of the matrix is
the feature vector. -/
theorem query_point_creator_shape (vocab sw : List String) (q1 q2 : String)
    (res : List (List ℝ) × String) (h : IsQueryPointCreator vocab sw q1 q2 res) :
    res.1.length = 1 ∧
    ∃ v, IsComputeFeatures vocab sw q1 q2 v ∧ v.length = 23 ∧
      ∀ i : ℕ, (res.1.getD 0 []).getD i 0 = v.getD i 0 := by
  obtain ⟨v, hv, hrow⟩ := h
  refine ⟨by rw [hrow]; rfl, v, hv, computeFeatures_length _ _ _ _ _ hv, ?_⟩
  intro i
  rw [hrow]
  rfl

/-- Witness for `query_point_creator_shape` at a concrete result pair. -/
theorem query_point_creator_shape_witness :
    (([(features22 [] "a" "b").map (fun x : ℚ => (x : ℝ)) ++ [(0 : ℝ)]], "ok") :
      List (List ℝ) × String).1.length = 1 :=
  (query_point_creator_shape [] [] "a" "b" _
    ⟨_, ⟨0, ⟨le_rfl, by simp [cosineSimSq, dotN, embed]⟩, rfl⟩, rfl⟩).1

/-- C4: the presentation layer never invokes the feature pipeline when either
question is empty or whitespace-only after trimming: whenever at least one
input strips to the empty string, the compare handler produces the warning
action (and hence no pipeline call). -/
theorem blank_guard_no_pipeline (q1 q2 : String)
    (h : pyStrip q1 = "" ∨ pyStrip q2 = "") :
    compareHandler q1 q2 = CompareAction.warn := by
  unfold compareHandler
  simp [h]

/-- Witness for `blank_guard_no_pipeline` at a whitespace-only first input. -/
theorem blank_guard_no_pipeline_witness :
    compareHandler "   " "What is gravity?" = CompareAction.warn :=
  blank_guard_no_pipeline "   " "What is gravity?" (Or.inl (by decide))

/-- C3: the duplicate judgment is derived solely from field 22 of the feature
vector compared against the caller-supplied threshold: a vector whose field 22
exceeds the threshold is judged duplicate, one whose field 22 is below is
judged non-duplicate, and any two vectors agreeing on field 22 receive the
same judgment at every threshold. -/
theorem verdict_threshold_only (t : ℝ) (v w : List ℝ) :
    (t < v.getD 22 0 → duplicateVerdict t v) ∧
    (v.getD 22 0 < t → ¬ duplicateVerdict t v) ∧
    (v.getD 22 0 = w.getD 22 0 → (duplicateVerdict t v ↔ duplicateVerdict t w)) := by
  refine ⟨fun h => h, fun h hlt => absurd hlt (not_lt.mpr h.le), fun h => ?_⟩
  unfold duplicateVerdict
  rw [h]

/-- Witness for `verdict_threshold_only` at a concrete vector and threshold. -/
theorem verdict_threshold_only_witness :
    duplicateVerdict (1/2 : ℝ)
      [0, 0, 0, 0, 0, 0, 0, 0, 0, 0, 0, 0, 0, 0, 0, 0, 0, 0, 0, 0, 0, 0, (9/10 : ℝ)] ∧
    ¬ duplicateVerdict (9/10 : ℝ)
      [0, 0, 0, 0, 0, 0, 0, 0, 0, 0, 0, 0, 0, 0, 0, 0, 0, 0, 0, 0, 0, 0, (1/2 : ℝ)] := by
  constructor
  · exact (verdict_threshold_only (1/2)
      [0, 0, 0, 0, 0, 0, 0, 0, 0, 0, 0, 0, 0, 0, 0, 0, 0, 0, 0, 0, 0, 0, (9/10 : ℝ)] []).1
      (by norm_num [List.getD])
  · exact (verdict_threshold_only (9/10)
      [0, 0, 0, 0, 0, 0, 0, 0, 0, 0, 0, 0, 0, 0, 0, 0, 0, 0, 0, 0, 0, 0, (1/2 : ℝ)] []).2.1
      (by norm_num [List.getD])

/-- C10: a cosine similarity exactly equal to the threshold is judged
non-duplicate, since the duplicate label requires strict greater-than. -/
theorem verdict_at_threshold_not_duplicate (t : ℝ) (v : List ℝ)
    (h : v.getD 22 0 = t) : ¬ duplicateVerdict t v := by
  unfold duplicateVerdict
  rw [h]
  exact lt_irrefl t

/-- Witness for `verdict_at_threshold_not_duplicate` with field 22 equal to the
threshold. -/
theorem verdict_at_threshold_not_duplicate_witness :
    ¬ duplicateVerdict (17/20 : ℝ)
      [0, 0, 0, 0, 0, 0, 0, 0, 0, 0, 0, 0, 0, 0, 0, 0, 0, 0, 0, 0, 0, 0, (17/20 : ℝ)] :=
  verdict_at_threshold_not_duplicate (17/20)
    [0, 0, 0, 0, 0, 0, 0, 0, 0, 0, 0, 0, 0, 0, 0, 0, 0, 0, 0, 0, 0, 0, (17/20 : ℝ)]
    (by norm_num [List.getD])

end DupQ
